import Mathlib

/-!
Shallow embedding of the MCP client orchestrator (`MCPClient` in the
repository's TypeScript source) and proofs about its routing, catalog,
persistence and cleanup behaviour.

Modelling conventions:
* JavaScript `Map<string, V>` values are association lists `List (String × V)`
  with `Map.get` = first match (`mapGet`), `Map.set` = replace-or-append
  (`mapSet`) and `Map.delete` = removal (`mapDelete`); a `Map` built by the
  client always has pairwise distinct keys.
* The axios client held for a server is identified by its `baseURL` string.
* HTTP effects are oracles passed in as arguments: `GET /tools` is
  `get : String → Except String (List MCPTool)` (base url to either the parsed
  tool list or a thrown error's message), and `POST /execute` is
  `post : String → MCPToolCall → Except String MCPToolResult`.
* `executeToolCall` additionally returns the trace of network calls it
  performed (base url and request body, in order), so "zero network calls"
  is the trace being `[]`.
* Process handles (`ChildProcess`) are modelled as opaque `Nat` pids inside
  `Option` (`null` = discovered, not owned).
-/

namespace OpenCodexMCP

/-- `MCPTool` from the source; the parameter schema is carried opaquely. -/
structure MCPTool where
  name : String
  description : String
  parameters : String
  deriving Repr, DecidableEq

/-- `MCPToolCall` from the source. -/
structure MCPToolCall where
  id : String
  name : String
  arguments : String
  deriving Repr, DecidableEq

/-- `MCPToolResult` from the source. -/
structure MCPToolResult where
  id : String
  result : String
  error : Option String
  deriving Repr, DecidableEq

/-- `MCPServerInfo` from the source (`process : ChildProcess | null`). -/
structure MCPServerInfo where
  id : String
  url : String
  process : Option Nat
  deriving Repr, DecidableEq

/-- The mutable fields of class `MCPClient`: the axios-client map (name to
base url), the `enabled` flag, the cached tool catalog, and the
`mcpServers` registry. -/
structure MCPClientState where
  clients : List (String × String)
  enabled : Bool
  tools : List MCPTool
  mcpServers : List (String × MCPServerInfo)
  deriving Repr, DecidableEq

/-- `Map.get`: first binding of the key, if any. -/
def mapGet {α : Type} : List (String × α) → String → Option α
  | [], _ => none
  | (k₂, v) :: rest, k => if k₂ = k then some v else mapGet rest k

/-- `Map.set`: replace the existing binding, else append a new one. -/
def mapSet {α : Type} : List (String × α) → String → α → List (String × α)
  | [], k, v => [(k, v)]
  | (k₂, w) :: rest, k, v =>
    if k₂ = k then (k₂, v) :: rest else (k₂, w) :: mapSet rest k v

/-- `Map.delete`. -/
def mapDelete {α : Type} (m : List (String × α)) (k : String) : List (String × α) :=
  m.filter (fun p => p.1 ≠ k)

/-- Split a character list on a separator character, JavaScript
`String.prototype.split` style: `n` separators yield `n + 1` fragments,
empty fragments included. -/
def splitChars (sep : Char) : List Char → List (List Char)
  | [] => [[]]
  | c :: cs =>
    if c = sep then [] :: splitChars sep cs
    else
      (c :: (splitChars sep cs).headD []) :: (splitChars sep cs).tail

/-- Embeds the JavaScript expression `toolCall.name.split(".", 2)`: the limit
argument keeps only the FIRST TWO fragments of the full split. -/
def jsSplitDot2 (s : String) : List String :=
  ((splitChars '.' s.data).map String.mk).take 2

/-- JavaScript falsiness of the destructured component: `undefined` (the
fragment list was too short) and the empty string are falsy. -/
def jsFalsyStr : Option String → Bool
  | none => true
  | some s => s.data.isEmpty

/-- `MCPClient.isEnabled`: `this.enabled && this.mcpServers.size > 0`. -/
def isEnabled (st : MCPClientState) : Bool :=
  st.enabled && !st.mcpServers.isEmpty

/-- Embeds `MCPClient.executeToolCall`.  Returns the `MCPToolResult` together
with the trace of network calls performed (base url and request body). -/
def executeToolCall (post : String → MCPToolCall → Except String MCPToolResult)
    (st : MCPClientState) (toolCall : MCPToolCall) :
    MCPToolResult × List (String × MCPToolCall) :=
  if !st.enabled || st.mcpServers.isEmpty then
    (⟨toolCall.id, "", some "MCP client is disabled or no servers are running"⟩, [])
  else
    let parts := jsSplitDot2 toolCall.name
    let serverName? := parts[0]?
    let toolName? := parts[1]?
    if jsFalsyStr serverName? || jsFalsyStr toolName? then
      (⟨toolCall.id, "",
        some ("Invalid tool name format: " ++ toolCall.name ++
          ". Expected format: server.toolName")⟩, [])
    else
      match mapGet st.clients (serverName?.getD "") with
      | none =>
        (⟨toolCall.id, "", some ("MCP server not found: " ++ serverName?.getD "")⟩, [])
      | some baseURL =>
        let modifiedToolCall : MCPToolCall :=
          ⟨toolCall.id, toolName?.getD "", toolCall.arguments⟩
        match post baseURL modifiedToolCall with
        | Except.ok response => (response, [(baseURL, modifiedToolCall)])
        | Except.error msg =>
          (⟨toolCall.id, "", some ("Error executing MCP tool: " ++ msg)⟩,
            [(baseURL, modifiedToolCall)])

/-- The namespacing applied by `MCPClient.refreshTools` to each tool a server
reports: qualified name `<server>.<tool>`, description `[<server>] <desc>`. -/
def namespacedTool (serverName : String) (t : MCPTool) : MCPTool :=
  ⟨serverName ++ "." ++ t.name, "[" ++ serverName ++ "] " ++ t.description,
    t.parameters⟩

/-- The body of the `for (const [name, client] of this.clients.entries())`
loop of `MCPClient.refreshTools`: a successful `GET /tools` appends the
server's namespaced tools to the accumulator; a thrown error is caught and
contributes nothing. -/
def refreshStep (get : String → Except String (List MCPTool))
    (acc : List MCPTool) (entry : String × String) : List MCPTool :=
  match get entry.2 with
  | Except.ok serverTools => acc ++ serverTools.map (namespacedTool entry.1)
  | Except.error _ => acc

/-- Embeds `MCPClient.refreshTools`: returns the list the method returns and
the updated client state (`this.tools` assigned on the non-early-return
path only). A server whose `GET /tools` throws is caught and skipped. -/
def refreshTools (get : String → Except String (List MCPTool))
    (st : MCPClientState) : List MCPTool × MCPClientState :=
  if !st.enabled || st.mcpServers.isEmpty then ([], st)
  else
    let allTools := st.clients.foldl (refreshStep get) []
    (allTools, { st with tools := allTools })

/-- Embeds the `process.on("exit", ...)` handler installed by
`MCPClient.startServers`: it deletes the record from `this.mcpServers`
(and touches nothing else; in particular `this.clients` keeps its entry). -/
def handleServerExit (st : MCPClientState) (name : String) : MCPClientState :=
  { st with mcpServers := mapDelete st.mcpServers name }

/-- Embeds the bind-port allocation of `MCPClient.startServers`: each server
gets `port = 8000 + Math.floor(Math.random() * 1000)`.  The successive values
of `Math.floor(Math.random() * 1000)` (each in `[0, 1000)`) are supplied as
`draws`, one per configured server, in launch order. -/
def startServersPorts (names : List String) (draws : List Nat) :
    List (String × Nat) :=
  (names.zip draws).map (fun p => (p.1, 8000 + p.2))

/-- One entry of the durable `.mcp-servers.json` state file. -/
structure SavedServer where
  id : String
  url : String
  deriving Repr, DecidableEq

/-- Embeds `MCPClient.saveServerState`: the file content written, an object
with one `{ id, url }` entry per registered server. -/
def saveServerState (st : MCPClientState) : List (String × SavedServer) :=
  st.mcpServers.map (fun p => (p.1, ⟨p.2.id, p.2.url⟩))

/-- The body of the `for (const [name, info] of Object.entries(state))` loop
of `MCPClient.loadServerState`: an entry whose name is already registered is
skipped; otherwise it is registered with `process := none` (the loading
instance did not start it) and gets an axios client. -/
def loadStep (s : MCPClientState) (entry : String × SavedServer) :
    MCPClientState :=
  if (mapGet s.mcpServers entry.1).isNone then
    { s with
      mcpServers := mapSet s.mcpServers entry.1 ⟨entry.2.id, entry.2.url, none⟩,
      clients := mapSet s.clients entry.1 entry.2.url }
  else s

/-- Embeds `MCPClient.loadServerState`.  `file` is the parsed state file:
`none` stands for an absent (or unreadable/unparsable, hence caught and
ignored) file. -/
def loadServerState (file : Option (List (String × SavedServer)))
    (st : MCPClientState) : MCPClientState :=
  match file with
  | none => st
  | some entries => entries.foldl loadStep st

/-- The body of the cleanup sweep over `this.mcpServers`: a record with an
owned process gets a kill attempt appended (whatever its outcome — a thrown
error is caught and the loop continues); a discovered record is skipped. -/
def killStep (kills : String → Bool) (acc : List (String × Bool))
    (entry : String × MCPServerInfo) : List (String × Bool) :=
  match entry.2.process with
  | some _ => acc ++ [(entry.1, kills entry.1)]
  | none => acc

/-- Embeds `MCPClient.cleanup`.  `kills name = false` models
`info.process.kill()` throwing for that server; the source catches the
exception and the loop continues, which the fold reflects.  Returns the
kill attempts performed (name and outcome, in order) and the state file
after the sweep: the file is rewritten to the empty object `\x7b\x7d` when it
exists, and left absent otherwise (write errors are ignored by the source
and not modelled).  The method never throws. -/
def cleanup (kills : String → Bool) (st : MCPClientState)
    (file : Option (List (String × SavedServer))) :
    List (String × Bool) × Option (List (String × SavedServer)) :=
  let signals := st.mcpServers.foldl (killStep kills) []
  (signals,
    match file with
    | none => none
    | some _ => some [])

/-- The claim's notion of a malformed qualified name: no separator at all,
or the component before the first separator is empty, or the component
after the first separator is empty. -/
def specMalformed (s : String) : Bool :=
  !s.data.contains '.' ||
  (s.data.takeWhile (fun c => c ≠ '.')).isEmpty ||
  ((s.data.dropWhile (fun c => c ≠ '.')).drop 1).isEmpty

/-! ### Concrete states and oracles used by closed theorems -/

/-- A client state with a single running server `A`. -/
def cexState : MCPClientState :=
  ⟨[("A", "http://localhost:8500")], true, [],
    [("A", ⟨"sid", "http://localhost:8500", some 1⟩)]⟩

/-- A transport oracle that always succeeds and echoes the request id. -/
def cexPost : String → MCPToolCall → Except String MCPToolResult :=
  fun _ call => Except.ok ⟨call.id, "ok", none⟩

/-- A transport oracle whose response carries id `"2"` whatever the request. -/
def mismatchPost : String → MCPToolCall → Except String MCPToolResult :=
  fun _ _ => Except.ok ⟨"2", "out", none⟩

/-- A client state with two running servers `A` and `B`. -/
def twoServerState : MCPClientState :=
  ⟨[("A", "urlA"), ("B", "urlB")], true, [],
    [("A", ⟨"ia", "urlA", some 1⟩), ("B", ⟨"ib", "urlB", some 2⟩)]⟩

/-- A client state that is enabled but has no server registered. -/
def emptyState : MCPClientState := ⟨[], true, [], []⟩

/-! ### Lemmas about the split embedding -/

theorem splitChars_cons (sep c : Char) (cs : List Char) :
    splitChars sep (c :: cs) =
      if c = sep then [] :: splitChars sep cs
      else (c :: (splitChars sep cs).headD []) :: (splitChars sep cs).tail := rfl

theorem splitChars_exists_cons (sep : Char) (cs : List Char) :
    ∃ h t, splitChars sep cs = h :: t := by
  induction cs with
  | nil => exact ⟨[], [], rfl⟩
  | cons c cs ih =>
    obtain ⟨h, t, hht⟩ := ih
    rw [splitChars_cons]
    by_cases hc : c = sep
    · exact ⟨[], splitChars sep cs, by simp [hc]⟩
    · exact ⟨c :: (splitChars sep cs).headD [], (splitChars sep cs).tail, by simp [hc]⟩

theorem splitChars_of_not_mem (sep : Char) (cs : List Char) (h : sep ∉ cs) :
    splitChars sep cs = [cs] := by
  induction cs with
  | nil => rfl
  | cons c cs ih =>
    rw [List.mem_cons] at h
    push_neg at h
    rw [splitChars_cons, if_neg (Ne.symm h.1), ih h.2]
    rfl

theorem splitChars_append_sep (sep : Char) (a bs : List Char) (h : sep ∉ a) :
    splitChars sep (a ++ sep :: bs) = a :: splitChars sep bs := by
  induction a with
  | nil => simp [splitChars_cons]
  | cons c a ih =>
    rw [List.mem_cons] at h
    push_neg at h
    show splitChars sep (c :: (a ++ sep :: bs)) = (c :: a) :: splitChars sep bs
    rw [splitChars_cons, if_neg (Ne.symm h.1), ih h.2]
    rfl

theorem jsSplitDot2_pair (a bs : List Char) (ha : ('.' : Char) ∉ a) :
    ∃ second rest, splitChars '.' bs = second :: rest ∧
      jsSplitDot2 (String.mk (a ++ '.' :: bs)) = [String.mk a, String.mk second] := by
  obtain ⟨h, t, hht⟩ := splitChars_exists_cons '.' bs
  refine ⟨h, t, hht, ?_⟩
  show ((splitChars '.' (a ++ '.' :: bs)).map String.mk).take 2 = _
  rw [splitChars_append_sep '.' a bs ha, hht]
  rfl

/-! ### The resolved path of executeToolCall -/

/-- When the guard passes, the name splits into two non-empty components and
the first resolves in the client map, `executeToolCall` forwards
`(id, localName, arguments)` to the resolved base url and translates the
transport outcome. -/
theorem executeToolCall_resolved
    (post : String → MCPToolCall → Except String MCPToolResult)
    (st : MCPClientState) (toolCall : MCPToolCall) (s t url : String)
    (hen : st.enabled = true) (hne : st.mcpServers.isEmpty = false)
    (hsplit : jsSplitDot2 toolCall.name = [s, t])
    (hs : s.data ≠ []) (ht : t.data ≠ [])
    (hurl : mapGet st.clients s = some url) :
    executeToolCall post st toolCall =
      (match post url ⟨toolCall.id, t, toolCall.arguments⟩ with
        | Except.ok response =>
          (response, [(url, ⟨toolCall.id, t, toolCall.arguments⟩)])
        | Except.error msg =>
          (⟨toolCall.id, "", some ("Error executing MCP tool: " ++ msg)⟩,
            [(url, ⟨toolCall.id, t, toolCall.arguments⟩)])) := by
  unfold executeToolCall
  simp [hen, hne, hsplit, jsFalsyStr, List.isEmpty_iff, hs, ht, hurl]

/-- The network trace of a resolved call is the single forwarded request,
whatever the transport outcome. -/
theorem executeToolCall_resolved_trace
    (post : String → MCPToolCall → Except String MCPToolResult)
    (st : MCPClientState) (toolCall : MCPToolCall) (s t url : String)
    (hen : st.enabled = true) (hne : st.mcpServers.isEmpty = false)
    (hsplit : jsSplitDot2 toolCall.name = [s, t])
    (hs : s.data ≠ []) (ht : t.data ≠ [])
    (hurl : mapGet st.clients s = some url) :
    (executeToolCall post st toolCall).2 =
      [(url, ⟨toolCall.id, t, toolCall.arguments⟩)] := by
  rw [executeToolCall_resolved post st toolCall s t url hen hne hsplit hs ht hurl]
  cases post url ⟨toolCall.id, t, toolCall.arguments⟩ <;> rfl

/-! ### C1 -/

/-- C1 (counterexample): invoking `"A.b.c"` against a registered server `A`
forwards the local name `"b"`, not `"b.c"` — the forwarded local name does
not equal everything after the first separator. -/
theorem C1_counterexample :
    (executeToolCall cexPost cexState ⟨"1", "A.b.c", "args"⟩).2 =
      [("http://localhost:8500", ⟨"1", "b", "args"⟩)] ∧
    ("b" : String) ≠ "b.c" := by decide

/-- C1 (amended): `executeToolCall` parses the qualified name on the first
separator into `(serverName, localName)`, but — because the JavaScript
`split(".", 2)` limit truncates rather than joins the remainder — the
`localName` forwarded to the resolved server is only the segment between the
first and the second separator: invoking a name of shape `a.b.c…` forwards
local name `b`, which differs from `b.c…` whenever a second separator is
present. -/
theorem C1_first_separator_parse_truncates_local_name
    (post : String → MCPToolCall → Except String MCPToolResult)
    (st : MCPClientState) (a b c : List Char) (url id args : String)
    (hen : st.enabled = true) (hne : st.mcpServers.isEmpty = false)
    (ha : ('.' : Char) ∉ a) (ha0 : a ≠ [])
    (hb : ('.' : Char) ∉ b) (hb0 : b ≠ [])
    (hurl : mapGet st.clients (String.mk a) = some url) :
    (executeToolCall post st ⟨id, String.mk (a ++ '.' :: (b ++ '.' :: c)), args⟩).2 =
      [(url, ⟨id, String.mk b, args⟩)] ∧
    String.mk b ≠ String.mk (b ++ '.' :: c) := by
  constructor
  · obtain ⟨second, rest, hsc, hsplit⟩ := jsSplitDot2_pair a (b ++ '.' :: c) ha
    rw [splitChars_append_sep '.' b c hb] at hsc
    have hsb : second = b := by
      injection hsc with h1 h2
      exact h1.symm
    rw [hsb] at hsplit
    exact executeToolCall_resolved_trace post st
      ⟨id, String.mk (a ++ '.' :: (b ++ '.' :: c)), args⟩
      (String.mk a) (String.mk b) url hen hne hsplit ha0 hb0 hurl
  · intro heq
    have hdata : b = b ++ '.' :: c := congrArg String.data heq
    have hlen := congrArg List.length hdata
    simp at hlen

/-- C1 (witness): the amended theorem applied to the concrete state with one
server `"A"` and the qualified name `"A.b.c"`. -/
theorem C1_first_separator_parse_truncates_local_name_witness :
    (executeToolCall cexPost cexState
        ⟨"1", String.mk (['A'] ++ '.' :: (['b'] ++ '.' :: ['c'])), "args"⟩).2 =
      [("http://localhost:8500", ⟨"1", String.mk ['b'], "args"⟩)] ∧
    String.mk ['b'] ≠ String.mk (['b'] ++ '.' :: ['c']) :=
  C1_first_separator_parse_truncates_local_name cexPost cexState
    ['A'] ['b'] ['c'] "http://localhost:8500" "1" "args"
    rfl rfl (by decide) (by decide) (by decide) (by decide) (by decide)

/-! ### C2 -/

/-- C2 (counterexample): a successful response whose id `"2"` differs from
the request id `"1"` is returned verbatim — with the mismatched id and no
failure field — instead of being turned into a `ProtocolViolation` failure. -/
theorem C2_counterexample :
    (executeToolCall mismatchPost cexState ⟨"1", "A.b", "args"⟩).1 =
      ⟨"2", "out", none⟩ ∧
    ("2" : String) ≠ "1" ∧
    (executeToolCall mismatchPost cexState ⟨"1", "A.b", "args"⟩).1.error = none := by
  decide

/-- C2 (amended): on a successful HTTP response, `executeToolCall` returns
the server's reported result verbatim, without any check of the echoed id:
a response whose id differs from the request's id is passed through
unchanged rather than surfaced as a `ProtocolViolation` failure. -/
theorem C2_success_response_returned_verbatim_without_id_check
    (post : String → MCPToolCall → Except String MCPToolResult)
    (st : MCPClientState) (toolCall : MCPToolCall) (s t url : String)
    (response : MCPToolResult)
    (hen : st.enabled = true) (hne : st.mcpServers.isEmpty = false)
    (hsplit : jsSplitDot2 toolCall.name = [s, t])
    (hs : s.data ≠ []) (ht : t.data ≠ [])
    (hurl : mapGet st.clients s = some url)
    (hpost : post url ⟨toolCall.id, t, toolCall.arguments⟩ = Except.ok response) :
    (executeToolCall post st toolCall).1 = response := by
  rw [executeToolCall_resolved post st toolCall s t url hen hne hsplit hs ht hurl,
    hpost]

/-- C2 (witness): the amended theorem applied to the concrete state with one
server `"A"` and a transport whose response id `"2"` mismatches the request
id `"1"`. -/
theorem C2_success_response_returned_verbatim_without_id_check_witness :
    (executeToolCall mismatchPost cexState ⟨"1", "A.b", "args"⟩).1 =
      ⟨"2", "out", none⟩ :=
  C2_success_response_returned_verbatim_without_id_check mismatchPost cexState
    ⟨"1", "A.b", "args"⟩ "A" "b" "http://localhost:8500" ⟨"2", "out", none⟩
    rfl rfl (by decide) (by decide) (by decide) (by decide) rfl

/-! ### C10 -/

/-- C10: whenever the client is disabled or no server is registered
(`isEnabled` is false), `executeToolCall` returns the generic
"MCP client is disabled or no servers are running" failure with zero network
calls, for every request — the qualified name (malformed or not) is never
inspected, because this check precedes name validation. -/
theorem C10_disabled_or_empty_check_precedes_name_validation
    (post : String → MCPToolCall → Except String MCPToolResult)
    (st : MCPClientState) (toolCall : MCPToolCall)
    (h : isEnabled st = false) :
    executeToolCall post st toolCall =
      (⟨toolCall.id, "", some "MCP client is disabled or no servers are running"⟩,
        []) := by
  unfold executeToolCall
  simp only [isEnabled, Bool.and_eq_false_iff] at h
  rcases h with h | h
  · simp [h]
  · simp at h
    simp [h]

/-- C10 (witness): a request with the malformed name `"noSeparator"` against
an enabled client with an empty registry gets the generic failure, not the
malformed-name failure. -/
theorem C10_disabled_or_empty_check_precedes_name_validation_witness :
    executeToolCall cexPost emptyState ⟨"7", "noSeparator", "args"⟩ =
      (⟨"7", "", some "MCP client is disabled or no servers are running"⟩, []) :=
  C10_disabled_or_empty_check_precedes_name_validation cexPost emptyState
    ⟨"7", "noSeparator", "args"⟩ (by decide)

/-! ### C3 -/

theorem mapGet_mapDelete {α : Type} (m : List (String × α)) (k : String) :
    mapGet (mapDelete m k) k = none := by
  induction m with
  | nil => rfl
  | cons p m ih =>
    obtain ⟨k₂, v⟩ := p
    unfold mapDelete at ih ⊢
    by_cases h : k₂ = k
    · simpa [List.filter_cons, h] using ih
    · simpa [List.filter_cons, h, mapGet] using ih

/-- C3 (counterexample): with servers `A` and `B` running, after `A`'s
process exits the registry lookup for `A` is absent, yet invoking `"A.x"`
still forwards a request to `A`'s (dead) endpoint through the surviving
client handle, and the result is not the `UnknownServer` failure. -/
theorem C3_counterexample :
    mapGet (handleServerExit twoServerState "A").mcpServers "A" = none ∧
    (executeToolCall cexPost (handleServerExit twoServerState "A")
        ⟨"1", "A.x", "args"⟩).2 = [("urlA", ⟨"1", "x", "args"⟩)] ∧
    (executeToolCall cexPost (handleServerExit twoServerState "A")
        ⟨"1", "A.x", "args"⟩).1.error ≠ some "MCP server not found: A" := by
  decide

/-- C3 (amended): when an owned server's child process exits, its record is
removed from the `mcpServers` registry immediately, so subsequent lookups of
that name return absent; but the exit handler does not remove the server's
HTTP client handle, so — as long as at least one other server keeps the
registry non-empty — a subsequent invoke of a qualifiedName naming the dead
server still resolves the stale client and forwards the request to its dead
endpoint rather than returning an `UnknownServer` failure. -/
theorem C3_exit_prunes_registry_but_not_clients
    (post : String → MCPToolCall → Except String MCPToolResult)
    (st : MCPClientState) (a b : List Char) (url id args : String)
    (ha : ('.' : Char) ∉ a) (ha0 : a ≠ [])
    (hb : ('.' : Char) ∉ b) (hb0 : b ≠ [])
    (hen : st.enabled = true)
    (hne : (handleServerExit st (String.mk a)).mcpServers.isEmpty = false)
    (hurl : mapGet st.clients (String.mk a) = some url) :
    mapGet (handleServerExit st (String.mk a)).mcpServers (String.mk a) = none ∧
    (handleServerExit st (String.mk a)).clients = st.clients ∧
    (executeToolCall post (handleServerExit st (String.mk a))
        ⟨id, String.mk (a ++ '.' :: b), args⟩).2 =
      [(url, ⟨id, String.mk b, args⟩)] := by
  refine ⟨mapGet_mapDelete st.mcpServers (String.mk a), rfl, ?_⟩
  obtain ⟨second, rest, hsc, hsplit⟩ := jsSplitDot2_pair a b ha
  rw [splitChars_of_not_mem '.' b hb] at hsc
  have hsb : second = b := by
    injection hsc with h1 h2
    exact h1.symm
  rw [hsb] at hsplit
  exact executeToolCall_resolved_trace post (handleServerExit st (String.mk a))
    ⟨id, String.mk (a ++ '.' :: b), args⟩ (String.mk a) (String.mk b) url
    hen hne hsplit ha0 hb0 hurl

/-- C3 (witness): the amended theorem at the two-server state, exiting `A`
and then invoking `"A.x"`. -/
theorem C3_exit_prunes_registry_but_not_clients_witness :
    mapGet (handleServerExit twoServerState (String.mk ['A'])).mcpServers
      (String.mk ['A']) = none ∧
    (handleServerExit twoServerState (String.mk ['A'])).clients =
      twoServerState.clients ∧
    (executeToolCall cexPost (handleServerExit twoServerState (String.mk ['A']))
        ⟨"1", String.mk (['A'] ++ '.' :: ['x']), "args"⟩).2 =
      [("urlA", ⟨"1", String.mk ['x'], "args"⟩)] :=
  C3_exit_prunes_registry_but_not_clients cexPost twoServerState ['A'] ['x']
    "urlA" "1" "args" (by decide) (by decide) (by decide) (by decide)
    rfl (by decide) (by decide)

/-! ### C4 -/

theorem dropWhile_mem_sep (cs : List Char) (h : ('.' : Char) ∈ cs) :
    ∃ t, cs.dropWhile (fun c => c ≠ '.') = '.' :: t := by
  induction cs with
  | nil => cases h
  | cons c cs ih =>
    by_cases hcp : c = '.'
    · subst hcp
      exact ⟨cs, by simp [List.dropWhile]⟩
    · rw [List.mem_cons] at h
      obtain ⟨t, ht⟩ := ih (h.resolve_left (fun he => hcp he.symm))
      exact ⟨t, by simpa [List.dropWhile, hcp] using ht⟩

theorem takeWhile_not_mem_sep (cs : List Char) :
    ('.' : Char) ∉ cs.takeWhile (fun c => c ≠ '.') := by
  intro hmem
  have := List.mem_takeWhile_imp hmem
  simp at this

/-- If the claim's malformedness predicate holds, the code's destructured
components fail the falsiness check. -/
theorem jsSplitDot2_falsy_of_specMalformed (s : String)
    (h : specMalformed s = true) :
    (jsFalsyStr (jsSplitDot2 s)[0]? || jsFalsyStr (jsSplitDot2 s)[1]?) = true := by
  by_cases hc : ('.' : Char) ∈ s.data
  · obtain ⟨t, ht⟩ := dropWhile_mem_sep s.data hc
    have hcontains : s.data.contains '.' = true := by simpa using hc
    have hdecomp : s.data = s.data.takeWhile (fun c => c ≠ '.') ++ '.' :: t := by
      conv_lhs =>
        rw [← List.takeWhile_append_dropWhile
          (p := fun c => decide (c ≠ '.')) (l := s.data)]
      rw [ht]
    have hempty : (s.data.takeWhile (fun c => c ≠ '.')).isEmpty = true ∨
        t.isEmpty = true := by
      unfold specMalformed at h
      rw [hcontains, ht] at h
      simpa using h
    obtain ⟨second, rest, hsc⟩ := splitChars_exists_cons '.' t
    have hjs : jsSplitDot2 s =
        [String.mk (s.data.takeWhile (fun c => c ≠ '.')), String.mk second] := by
      unfold jsSplitDot2
      conv_lhs => rw [hdecomp]
      rw [splitChars_append_sep '.' _ t (takeWhile_not_mem_sep s.data), hsc]
      rfl
    rw [hjs]
    rcases hempty with hA | hT
    · show ((s.data.takeWhile (fun c => c ≠ '.')).isEmpty || second.isEmpty) = true
      rw [hA, Bool.true_or]
    · have ht0 : t = [] := List.isEmpty_iff.mp hT
      subst ht0
      have hsecond : second = [] := by
        have h2 : ([[]] : List (List Char)) = second :: rest := hsc
        injection h2 with h21 h22
        exact h21.symm
      subst hsecond
      show ((s.data.takeWhile (fun c => c ≠ '.')).isEmpty || true) = true
      exact Bool.or_true _
  · have hone : splitChars '.' s.data = [s.data] :=
      splitChars_of_not_mem '.' s.data hc
    unfold jsSplitDot2
    rw [hone]
    simp [jsFalsyStr]

/-- C4: when the client is enabled and at least one server is registered
(so that the disabled/empty check of C10 does not fire first), every
invocation whose qualified name has no separator, or an empty component
before or after the first separator, is rejected with the malformed-name
failure and zero network calls are performed. -/
theorem C4_malformed_name_rejected_with_zero_network_calls
    (post : String → MCPToolCall → Except String MCPToolResult)
    (st : MCPClientState) (toolCall : MCPToolCall)
    (hen : isEnabled st = true)
    (hmal : specMalformed toolCall.name = true) :
    executeToolCall post st toolCall =
      (⟨toolCall.id, "",
        some ("Invalid tool name format: " ++ toolCall.name ++
          ". Expected format: server.toolName")⟩, []) := by
  simp only [isEnabled, Bool.and_eq_true, Bool.not_eq_true'] at hen
  unfold executeToolCall
  simp [hen.1, hen.2, jsSplitDot2_falsy_of_specMalformed toolCall.name hmal]

/-- C4 (witness): `"noSeparator"` against a state with one running server is
rejected as malformed with an empty network trace. -/
theorem C4_malformed_name_rejected_with_zero_network_calls_witness :
    executeToolCall cexPost cexState ⟨"9", "noSeparator", "args"⟩ =
      (⟨"9", "",
        some ("Invalid tool name format: " ++ "noSeparator" ++
          ". Expected format: server.toolName")⟩, []) :=
  C4_malformed_name_rejected_with_zero_network_calls cexPost cexState
    ⟨"9", "noSeparator", "args"⟩ (by decide) (by decide)

/-! ### C5 -/

/-- C5: evaluating the port allocation at the failing input — two servers
launched while `Math.floor(Math.random() * 1000)` yields `500` both times —
assigns both servers the same port `8500`: the allocated bind addresses are
not pairwise distinct, because the allocator draws independently at random
with no collision check. -/
theorem C5_port_collision_at_failing_input :
    startServersPorts ["A", "B"] [500, 500] = [("A", 8500), ("B", 8500)] ∧
    ¬ ((startServersPorts ["A", "B"] [500, 500]).map Prod.snd).Nodup := by
  decide

/-! ### C6 and C7 -/

theorem guard_false_of_isEnabled (st : MCPClientState)
    (hen : isEnabled st = true) :
    (!st.enabled || st.mcpServers.isEmpty) = false := by
  simp only [isEnabled, Bool.and_eq_true, Bool.not_eq_true'] at hen
  simp [hen.1, hen.2]

theorem refreshTools_fst (get : String → Except String (List MCPTool))
    (st : MCPClientState)
    (hguard : (!st.enabled || st.mcpServers.isEmpty) = false) :
    (refreshTools get st).1 = st.clients.foldl (refreshStep get) [] := by
  unfold refreshTools
  rw [hguard]
  rfl

theorem refreshTools_tools (get : String → Except String (List MCPTool))
    (st : MCPClientState)
    (hguard : (!st.enabled || st.mcpServers.isEmpty) = false) :
    (refreshTools get st).2.tools = st.clients.foldl (refreshStep get) [] := by
  unfold refreshTools
  rw [hguard]
  rfl

/-- C6: with servers `A` and `B` each successfully reporting a single local
tool `"x"`, a refresh yields exactly the two descriptors `A.x` and `B.x`
with descriptions prefixed by the owning server's bracketed name; whenever
`A ≠ B` the two qualified names differ by construction of the prefix — no
runtime deduplication is involved. -/
theorem C6_catalog_namespacing_no_collision
    (get : String → Except String (List MCPTool))
    (st : MCPClientState) (A B uA uB dA dB pA pB : String)
    (hcl : st.clients = [(A, uA), (B, uB)])
    (hen : isEnabled st = true)
    (hA : get uA = Except.ok [⟨"x", dA, pA⟩])
    (hB : get uB = Except.ok [⟨"x", dB, pB⟩])
    (hAB : A ≠ B) :
    (refreshTools get st).1 =
      [⟨A ++ "." ++ "x", "[" ++ A ++ "] " ++ dA, pA⟩,
        ⟨B ++ "." ++ "x", "[" ++ B ++ "] " ++ dB, pB⟩] ∧
    A ++ "." ++ "x" ≠ B ++ "." ++ "x" := by
  constructor
  · rw [refreshTools_fst get st (guard_false_of_isEnabled st hen), hcl]
    simp [refreshStep, hA, hB, namespacedTool]
  · intro h
    apply hAB
    have hd := congrArg String.data h
    simp only [String.data_append] at hd
    have h1 := List.append_cancel_right hd
    have hdata : A.data = B.data := List.append_cancel_right h1
    obtain ⟨la⟩ := A
    obtain ⟨lb⟩ := B
    exact congrArg String.mk hdata

/-- C6 (witness): the theorem applied to the two-server state with a
concrete listing oracle. -/
def cexGet : String → Except String (List MCPTool) :=
  fun u =>
    if u = "urlA" then Except.ok [⟨"x", "descA", "p"⟩]
    else if u = "urlB" then Except.ok [⟨"x", "descB", "p"⟩]
    else Except.error "connection refused"

theorem C6_catalog_namespacing_no_collision_witness :
    (refreshTools cexGet twoServerState).1 =
      [⟨"A" ++ "." ++ "x", "[" ++ "A" ++ "] " ++ "descA", "p"⟩,
        ⟨"B" ++ "." ++ "x", "[" ++ "B" ++ "] " ++ "descB", "p"⟩] ∧
    "A" ++ "." ++ "x" ≠ "B" ++ "." ++ "x" :=
  C6_catalog_namespacing_no_collision cexGet twoServerState
    "A" "B" "urlA" "urlB" "descA" "descB" "p" "p"
    rfl (by decide) rfl rfl (by decide)

theorem foldl_refreshStep_skip (get : String → Except String (List MCPTool))
    (n u e : String) (hfail : get u = Except.error e)
    (l₁ l₂ : List (String × String)) (acc : List MCPTool) :
    (l₁ ++ (n, u) :: l₂).foldl (refreshStep get) acc =
      (l₁ ++ l₂).foldl (refreshStep get) acc := by
  rw [List.foldl_append, List.foldl_append, List.foldl_cons]
  congr 1
  simp [refreshStep, hfail]

/-- C7: on a refresh with the guard passing, a server whose capability
listing fails contributes zero descriptors — the catalog equals the one
computed from the remaining servers alone — while the other servers'
descriptors are still collected; and the new catalog wholly replaces the
cached one: `tools` is assigned the freshly computed list, whose value is
independent of the previous catalog. -/
theorem C7_refresh_failure_isolated_and_catalog_replaced
    (get : String → Except String (List MCPTool))
    (st : MCPClientState) (n u e : String)
    (l₁ l₂ : List (String × String))
    (hen : isEnabled st = true)
    (hcl : st.clients = l₁ ++ (n, u) :: l₂)
    (hfail : get u = Except.error e) :
    (refreshTools get st).1 =
      (refreshTools get { st with clients := l₁ ++ l₂ }).1 ∧
    (refreshTools get st).2.tools = (refreshTools get st).1 ∧
    (∀ old, (refreshTools get { st with tools := old }).1 =
      (refreshTools get st).1) := by
  have hguard : (!st.enabled || st.mcpServers.isEmpty) = false :=
    guard_false_of_isEnabled st hen
  refine ⟨?_, ?_, ?_⟩
  · rw [refreshTools_fst get st hguard,
      refreshTools_fst get { st with clients := l₁ ++ l₂ } hguard]
    show (st.clients.foldl (refreshStep get) []) =
      ((l₁ ++ l₂).foldl (refreshStep get) [])
    rw [hcl]
    exact foldl_refreshStep_skip get n u e hfail l₁ l₂ []
  · rw [refreshTools_fst get st hguard, refreshTools_tools get st hguard]
  · intro old
    rw [refreshTools_fst get st hguard,
      refreshTools_fst get { st with tools := old } hguard]

/-- C7 (witness): a refresh over servers `A` (listing fails) and `B`
(listing succeeds) collects exactly `B`'s descriptors, equals the refresh
without `A`, and overwrites the stale cached catalog. -/
def failAGet : String → Except String (List MCPTool) :=
  fun u =>
    if u = "urlB" then Except.ok [⟨"x", "descB", "p"⟩]
    else Except.error "connection refused"

theorem C7_refresh_failure_isolated_and_catalog_replaced_witness :
    (refreshTools failAGet twoServerState).1 =
      (refreshTools failAGet
        { twoServerState with clients := [] ++ [("B", "urlB")] }).1 ∧
    (refreshTools failAGet twoServerState).2.tools =
      (refreshTools failAGet twoServerState).1 ∧
    (∀ old, (refreshTools failAGet { twoServerState with tools := old }).1 =
      (refreshTools failAGet twoServerState).1) :=
  C7_refresh_failure_isolated_and_catalog_replaced failAGet twoServerState
    "A" "urlA" "connection refused" [] [("B", "urlB")]
    (by decide) rfl rfl

/-! ### C8 -/

theorem mapGet_cons {α : Type} (k₂ : String) (v : α)
    (rest : List (String × α)) (k : String) :
    mapGet ((k₂, v) :: rest) k = if k₂ = k then some v else mapGet rest k := rfl

theorem mapSet_cons {α : Type} (k₂ : String) (w : α)
    (rest : List (String × α)) (k : String) (v : α) :
    mapSet ((k₂, w) :: rest) k v =
      if k₂ = k then (k₂, v) :: rest else (k₂, w) :: mapSet rest k v := rfl

theorem mapGet_append_some {α : Type} (m₁ m₂ : List (String × α))
    (k : String) (v : α) (h : mapGet m₁ k = some v) :
    mapGet (m₁ ++ m₂) k = some v := by
  induction m₁ with
  | nil => simp [mapGet] at h
  | cons p m₁ ih =>
    obtain ⟨k₂, w⟩ := p
    rw [mapGet_cons] at h
    rw [List.cons_append, mapGet_cons]
    by_cases hk : k₂ = k
    · rwa [if_pos hk] at h ⊢
    · rw [if_neg hk] at h ⊢
      exact ih h

theorem mapGet_append_none {α : Type} (m₁ m₂ : List (String × α))
    (k : String) (h : mapGet m₁ k = none) :
    mapGet (m₁ ++ m₂) k = mapGet m₂ k := by
  induction m₁ with
  | nil => simp
  | cons p m₁ ih =>
    obtain ⟨k₂, w⟩ := p
    rw [mapGet_cons] at h
    rw [List.cons_append, mapGet_cons]
    by_cases hk : k₂ = k
    · rw [if_pos hk] at h
      exact absurd h (by simp)
    · rw [if_neg hk] at h ⊢
      exact ih h

theorem mapSet_absent {α : Type} (m : List (String × α)) (k : String) (v : α)
    (h : mapGet m k = none) : mapSet m k v = m ++ [(k, v)] := by
  induction m with
  | nil => rfl
  | cons p m ih =>
    obtain ⟨k₂, w⟩ := p
    rw [mapGet_cons] at h
    rw [mapSet_cons]
    by_cases hk : k₂ = k
    · rw [if_pos hk] at h
      exact absurd h (by simp)
    · rw [if_neg hk] at h
      rw [if_neg hk, ih h, List.cons_append]

theorem loadStep_mcpServers_of_absent (s : MCPClientState)
    (e : String × SavedServer) (h : mapGet s.mcpServers e.1 = none) :
    (loadStep s e).mcpServers =
      s.mcpServers ++ [(e.1, ⟨e.2.id, e.2.url, none⟩)] := by
  unfold loadStep
  rw [h]
  simp [mapSet_absent s.mcpServers e.1 _ h]

theorem foldl_loadStep_fresh (entries : List (String × SavedServer)) :
    ∀ s : MCPClientState,
      (entries.map Prod.fst).Nodup →
      (∀ p ∈ entries, mapGet s.mcpServers p.1 = none) →
      (entries.foldl loadStep s).mcpServers =
        s.mcpServers ++
          entries.map (fun p => (p.1, (⟨p.2.id, p.2.url, none⟩ : MCPServerInfo))) := by
  induction entries with
  | nil =>
    intro s _ _
    simp
  | cons e es ih =>
    intro s hnd hfresh
    have he : mapGet s.mcpServers e.1 = none := hfresh e (List.mem_cons_self e es)
    have hstep := loadStep_mcpServers_of_absent s e he
    have hnd₂ : (es.map Prod.fst).Nodup := by
      rw [List.map_cons, List.nodup_cons] at hnd
      exact hnd.2
    have hnotmem : e.1 ∉ es.map Prod.fst := by
      rw [List.map_cons, List.nodup_cons] at hnd
      exact hnd.1
    have hfresh₂ : ∀ p ∈ es, mapGet (loadStep s e).mcpServers p.1 = none := by
      intro p hp
      rw [hstep, mapGet_append_none _ _ _ (hfresh p (List.mem_cons_of_mem e hp))]
      have hne : e.1 ≠ p.1 := by
        intro hep
        exact hnotmem (hep ▸ List.mem_map_of_mem Prod.fst hp)
      simp [mapGet, hne]
    rw [List.foldl_cons, ih (loadStep s e) hnd₂ hfresh₂, hstep]
    simp

theorem loadStep_preserves (s : MCPClientState) (e : String × SavedServer)
    (k : String) (v : MCPServerInfo) (h : mapGet s.mcpServers k = some v) :
    mapGet (loadStep s e).mcpServers k = some v := by
  cases he : mapGet s.mcpServers e.1 with
  | none =>
    rw [loadStep_mcpServers_of_absent s e he]
    exact mapGet_append_some _ _ _ _ h
  | some w =>
    unfold loadStep
    rw [he]
    simpa using h

theorem foldl_loadStep_preserves (entries : List (String × SavedServer)) :
    ∀ (s : MCPClientState) (k : String) (v : MCPServerInfo),
      mapGet s.mcpServers k = some v →
      mapGet ((entries.foldl loadStep s)).mcpServers k = some v := by
  induction entries with
  | nil =>
    intro s k v h
    simpa using h
  | cons e es ih =>
    intro s k v h
    rw [List.foldl_cons]
    exact ih (loadStep s e) k v (loadStep_preserves s e k v h)

/-- C8: save-then-load round-trip.  Loading the file written by `save` into
a freshly constructed client with an empty registry registers every
previously saved `(name, id, url)` entry, in order, each marked discovered
(`process := none`); and a load never overwrites a record whose name is
already known to the loading instance. -/
theorem C8_save_load_roundtrip_discovered_and_no_overwrite
    (st st₀ st₁ : MCPClientState)
    (file : Option (List (String × SavedServer)))
    (k : String) (v : MCPServerInfo)
    (hnd : (st.mcpServers.map Prod.fst).Nodup)
    (h₀ : st₀.mcpServers = [])
    (hkv : mapGet st₁.mcpServers k = some v) :
    (loadServerState (some (saveServerState st)) st₀).mcpServers =
      st.mcpServers.map
        (fun p => (p.1, (⟨p.2.id, p.2.url, none⟩ : MCPServerInfo))) ∧
    mapGet (loadServerState file st₁).mcpServers k = some v := by
  constructor
  · show ((saveServerState st).foldl loadStep st₀).mcpServers = _
    rw [foldl_loadStep_fresh (saveServerState st) st₀
      (by simpa [saveServerState, List.map_map] using hnd)
      (fun p _ => by rw [h₀]; rfl)]
    rw [h₀]
    simp [saveServerState, List.map_map]
  · cases file with
    | none => exact hkv
    | some entries => exact foldl_loadStep_preserves entries st₁ k v hkv

/-- C8 (witness): saving the two-server state and loading it into a fresh
empty client recovers both records as discovered; loading any file into a
client that already knows `"A"` leaves `"A"`'s record unchanged. -/
theorem C8_save_load_roundtrip_discovered_and_no_overwrite_witness :
    (loadServerState (some (saveServerState twoServerState)) emptyState).mcpServers =
      twoServerState.mcpServers.map
        (fun p => (p.1, (⟨p.2.id, p.2.url, none⟩ : MCPServerInfo))) ∧
    mapGet (loadServerState (some (saveServerState twoServerState))
        cexState).mcpServers "A" =
      some ⟨"sid", "http://localhost:8500", some 1⟩ :=
  C8_save_load_roundtrip_discovered_and_no_overwrite twoServerState emptyState
    cexState (some (saveServerState twoServerState)) "A"
    ⟨"sid", "http://localhost:8500", some 1⟩ (by decide) rfl (by decide)

/-! ### C9 -/

theorem foldl_killStep (kills : String → Bool)
    (l : List (String × MCPServerInfo)) :
    ∀ acc : List (String × Bool),
      l.foldl (killStep kills) acc =
        acc ++ (l.filter (fun p => p.2.process.isSome)).map
          (fun p => (p.1, kills p.1)) := by
  induction l with
  | nil =>
    intro acc
    simp
  | cons e es ih =>
    intro acc
    rw [List.foldl_cons]
    cases hp : e.2.process with
    | none =>
      rw [show killStep kills acc e = acc by simp [killStep, hp]]
      rw [ih acc]
      simp [List.filter_cons, hp]
    | some pid =>
      rw [show killStep kills acc e = acc ++ [(e.1, kills e.1)] by
        simp [killStep, hp]]
      rw [ih (acc ++ [(e.1, kills e.1)])]
      simp [List.filter_cons, hp]

/-- C9: `cleanup` is best-effort and idempotent at the interface.  The kill
attempts always cover exactly the owned records (those with a process
handle), in registry order, regardless of which individual kills throw — so
one failure never prevents the signal from being sent to the rest; the
persisted state after a sweep is an empty record set (empty object, or
still-absent file); and running `cleanup` again on the resulting state file
changes nothing and (being a total function whose source catches every
exception) produces no error. -/
theorem C9_cleanup_idempotent_and_best_effort
    (kills kills₂ : String → Bool) (st : MCPClientState)
    (file : Option (List (String × SavedServer))) :
    ((cleanup kills st file).1.map Prod.fst =
      (st.mcpServers.filter (fun p => p.2.process.isSome)).map Prod.fst) ∧
    ((cleanup kills st file).1.map Prod.fst =
      (cleanup kills₂ st file).1.map Prod.fst) ∧
    ((cleanup kills st ((cleanup kills st file).2)).2 =
      (cleanup kills st file).2) ∧
    ((cleanup kills st file).2 = none ∨ (cleanup kills st file).2 = some []) := by
  have hsig : ∀ ks : String → Bool,
      (cleanup ks st file).1.map Prod.fst =
        (st.mcpServers.filter (fun p => p.2.process.isSome)).map Prod.fst := by
    intro ks
    show (st.mcpServers.foldl (killStep ks) []).map Prod.fst = _
    rw [foldl_killStep ks st.mcpServers []]
    simp [List.map_map]
  refine ⟨hsig kills, (hsig kills).trans (hsig kills₂).symm, ?_, ?_⟩
  · cases file <;> rfl
  · cases file
    · exact Or.inl rfl
    · exact Or.inr rfl

end OpenCodexMCP
